import Mathlib

/-!
Verification of the Ollama-OCR core against its specification.

This development shallowly embeds the two Python classes of the repository,
OCRProcessor (src/ollama_ocr/ocr_processor.py) and ImageProcessor
(src/ollama_ocr/image_processor.py).  Pure computations (magic-byte
signature detection, filename sanitisation, report assembly, best-effort
JSON formatting, unit-list resolution) are translated directly from the
source.  The effectful boundaries (HTTP transport, filesystem, OpenCV,
PyMuPDF, the inference endpoint) are abstracted as explicit environment
records whose fields return Except or Option values at exactly the points
where the Python code can raise or return data; a theorem quantified over
such an environment holds for every behaviour of those collaborators.

Conventions of the embedding:
* a Python dict is an association list with CPython assignment semantics
  (update in place for an existing key, append otherwise);
* Python str is String, bytes is List Nat;
* a worker pool draining futures with as_completed is modelled by folding
  the submission list: every per-unit value is a function of the unit key
  alone, so key sets, looked-up values and all counters are identical for
  every completion order, which is what the theorems below speak about;
* json.loads is modelled by an executable recursive-descent parser of the
  JSON grammar (numbers and string bodies are kept as their lexemes), and
  json.dumps(indent = 2) by an executable printer of the same shape; the
  value-level fidelity of these two models is never load-bearing: the
  claims only depend on parse success or failure and on the fact that a
  successful parse is re-serialised.
-/

namespace OllamaOCR

/-! ## Python dict model -/

/-- Association-list model of a Python dict from str to str.  CPython
assignment d[k] = v replaces the value of an existing key in place and
otherwise appends a fresh entry, which is exactly this function. -/
abbrev Dict := List (String × String)

def dictInsert : Dict → String → String → Dict
  | [], k, v => [(k, v)]
  | p :: rest, k, v =>
    if p.1 = k then (k, v) :: rest else p :: dictInsert rest k v

def hasKey (m : Dict) (k : String) : Bool :=
  m.any (fun p => p.1 == k)

def lookupDict (m : Dict) (k : String) : Option String :=
  (m.find? (fun p => p.1 == k)).map (fun p => p.2)

/-- Executable prefix test on lists, used to model bytes.startswith and
str.startswith from the Python source. -/
def startsWithList {α : Type} [BEq α] : List α → List α → Bool
  | [], _ => true
  | _ :: _, [] => false
  | a :: as, b :: bs => (a == b) && startsWithList as bs

def strStartsWith (s pre : String) : Bool := startsWithList pre.toList s.toList

def exceptIsOk {ε α : Type} : Except ε α → Bool
  | .ok _ => true
  | .error _ => false

/-! ## ImageProcessor (image_processor.py) -/

namespace ImageProcessor

/-- Signature table from ImageProcessor.__init__ (image_processor.py lines
54 to 63): raw signature bytes, mime type, minimum length.  The WEBP entry
is the twelve byte literal RIFF....WEBP whose four dots are the byte 0x2e,
exactly as written in the Python source, where it is compared with
bytes.startswith (a literal comparison, not a wildcard pattern). -/
def signature_checks : List (List Nat × String × Nat) :=
  [ ([0xff, 0xd8, 0xff], "image/jpeg", 3),
    ([0x89, 0x50, 0x4e, 0x47, 0x0d, 0x0a, 0x1a, 0x0a], "image/png", 8),
    ([0x47, 0x49, 0x46, 0x38, 0x37, 0x61], "image/gif", 6),
    ([0x47, 0x49, 0x46, 0x38, 0x39, 0x61], "image/gif", 6),
    ([0x52, 0x49, 0x46, 0x46, 0x2e, 0x2e, 0x2e, 0x2e, 0x57, 0x45, 0x42, 0x50], "image/webp", 12),
    ([0x42, 0x4d], "image/bmp", 2),
    ([0x49, 0x49, 0x2a, 0x00], "image/tiff", 4),
    ([0x4d, 0x4d, 0x00, 0x2a], "image/tiff", 4) ]

/-- Mime-to-extension table from ImageProcessor.__init__ (lines 43 to 51).
Each Python entry is a compiled regular expression that is a plain literal,
used with re.match, hence a prefix test here. -/
def mime_map : List (String × String) :=
  [ ("image/jpeg", "jpg"), ("image/png", "png"), ("image/gif", "gif"),
    ("image/webp", "webp"), ("image/bmp", "bmp"), ("image/tiff", "tiff"),
    ("application/octet-stream", "bin") ]

/-- ImageProcessor._detect_mime_type (lines 121 to 132): first signature
whose bytes are a literal prefix of the content wins; its mime is then
mapped through mime_map (first prefix-matching pattern), falling back to
the extension bin; no signature match yields (none, none). -/
def detect_mime_type (content : List Nat) : Option String × Option String :=
  match signature_checks.find? (fun s => startsWithList s.1 content) with
  | some s =>
    match mime_map.find? (fun pm => strStartsWith s.2.1 pm.1) with
    | some pm => (some s.2.1, some pm.2)
    | none => (some s.2.1, some "bin")
  | none => (none, none)

/-- max(s[2] for s in signature_checks) from line 64; the list is nonempty
so the fold from zero equals the Python max. -/
def max_sig_length : Nat := (signature_checks.map (fun s => s.2.2)).foldl max 0

def max_filename_length : Nat := 255

/-- The character class of the regular expression used at line 94. -/
def dangerous_chars : List Char := ['\\', '/', '*', '?', ':', '\"', '<', '>', '|']

def hexVal (c : Char) : Option Nat :=
  if '0' ≤ c ∧ c ≤ '9' then some (c.toNat - '0'.toNat)
  else if 'a' ≤ c ∧ c ≤ 'f' then some (c.toNat - 'a'.toNat + 10)
  else if 'A' ≤ c ∧ c ≤ 'F' then some (c.toNat - 'A'.toNat + 10)
  else none

/-- Byte-level model of urllib.parse.unquote (line 91): every valid %XX
escape decodes to the character of code XX, anything else passes through.
CPython additionally UTF-8-decodes runs of high bytes, which only changes
which non-ASCII characters appear; no property proved here depends on
that, since the very next step replaces every path-hostile character. -/
def pyUnquote : List Char → List Char
  | [] => []
  | '%' :: h1 :: h2 :: rest =>
    match hexVal h1, hexVal h2 with
    | some a, some b => Char.ofNat (16 * a + b) :: pyUnquote rest
    | _, _ => '%' :: pyUnquote (h1 :: h2 :: rest)
  | c :: rest => c :: pyUnquote rest

/-- re.sub of the dangerous-character class with an underscore (line 94). -/
def replaceDangerous (l : List Char) : List Char :=
  l.map (fun c => if c ∈ dangerous_chars then '_' else c)

/-- The whitespace class of the regular expression backslash-s and of
str.strip, modelled on its ASCII part; the extra Unicode space characters
CPython also matches are irrelevant to every property proved here. -/
def isSpaceChar (c : Char) : Bool :=
  c = ' ' || c = '\t' || c = '\n' || c = '\r' || c = '\x0b' || c = '\x0c'

/-- re.sub of one-or-more whitespace with a single underscore (line 95):
the flag records whether we are inside a whitespace run. -/
def collapseWsAux : Bool → List Char → List Char
  | _, [] => []
  | inRun, c :: rest =>
    if isSpaceChar c then
      (if inRun then [] else ['_']) ++ collapseWsAux true rest
    else c :: collapseWsAux false rest

def collapseWs (l : List Char) : List Char := collapseWsAux false l

/-- str.strip() from line 95. -/
def pyStrip (l : List Char) : List Char :=
  ((l.dropWhile isSpaceChar).reverse.dropWhile isSpaceChar).reverse

/-- str.rstrip of dots from line 96. -/
def rstripDots (l : List Char) : List Char :=
  (l.reverse.dropWhile (fun c => c = '.')).reverse

/-- os.path.splitext for a name without directory separators: split at the
last dot provided some earlier character is not a dot (so purely leading
dots never form an extension), else no extension. -/
def splitextPy (l : List Char) : List Char × List Char :=
  let suffix := l.reverse.takeWhile (fun c => ¬ c = '.')
  if suffix.length < l.length then
    let dotIndex := l.length - suffix.length - 1
    if (l.take dotIndex).any (fun c => ¬ c = '.') then
      (l.take dotIndex, l.drop dotIndex)
    else (l, [])
  else (l, [])

/-- Python slicing s[:k] for an Int bound: a negative bound counts from
the end, clamped at zero. -/
def pyTakeInt (k : Int) (l : List Char) : List Char :=
  if 0 ≤ k then l.take k.toNat else l.take (l.length - (-k).toNat)

/-- Lines 98 to 107 of _sanitize_filename, applied to the already cleaned
name: empty names become unnamed_ plus eight digest characters (the digest
argument stands for the md5 hexdigest of os.urandom, always hexadecimal);
otherwise the base is truncated so that base plus extension fits the
maximum, and a final slice bounds the whole name. -/
def sanitizeCore (digest cleaned : List Char) : List Char :=
  if cleaned.isEmpty then
    (String.toList "unnamed_") ++ digest.take 8
  else
    (pyTakeInt ((max_filename_length : Int) - (splitextPy cleaned).2.length - 1)
        (splitextPy cleaned).1 ++ (splitextPy cleaned).2).take max_filename_length

/-- ImageProcessor._sanitize_filename (lines 88 to 107): percent-decode,
replace dangerous characters, collapse whitespace, strip, drop trailing
dots, then the core of the previous definition. -/
def sanitize_filename (digest : List Char) (filename : List Char) : List Char :=
  sanitizeCore digest (rstripDots (pyStrip (collapseWs (replaceDangerous (pyUnquote filename)))))

structure ImgState where
  max_workers : Int
  timeout : Int
  keep_temp : Bool
deriving DecidableEq

/-- ImageProcessor.__init__ (lines 15 to 31): raises ValueError on a
non-positive worker count or timeout, otherwise stores the configuration. -/
def init (max_workers timeout : Int) (keep_temp : Bool) : Except String ImgState :=
  if max_workers ≤ 0 then .error "max_workers必须为正整数"
  else if timeout ≤ 0 then .error "timeout必须为正数"
  else .ok { max_workers := max_workers, timeout := timeout, keep_temp := keep_temp }

/-- The chunk loop of _fetch_image (lines 163 to 172): empty chunks are
skipped (if chunk:), each kept chunk is appended, and once at least
max_sig_length bytes have arrived the signature is checked; an unmatched
signature aborts the whole fetch. -/
def fetchLoop (sigLen : Nat) : List (List Nat) → List Nat → Option (List Nat)
  | [], acc => some acc
  | ch :: rest, acc =>
    if ch.isEmpty then fetchLoop sigLen rest acc
    else
      let acc2 := acc ++ ch
      if sigLen ≤ acc2.length then
        match (detect_mime_type acc2).1 with
        | none => none
        | some _ => fetchLoop sigLen rest acc2
      else fetchLoop sigLen rest acc2

/-- ImageProcessor._fetch_image (lines 152 to 181) over an abstract
transport outcome: a transport error (requests.RequestException after the
retrying adapter gives up, a non-2xx status raised by raise_for_status)
is the error case and yields none; a successful stream yields its chunk
list, which is validated incrementally and then once more at the end. -/
def fetch_image (resp : Except String (List (List Nat))) : Option (List Nat × String) :=
  match resp with
  | .error _ => none
  | .ok chunks =>
    match fetchLoop max_sig_length chunks [] with
    | none => none
    | some content =>
      match detect_mime_type content with
      | (some _, some ext) => some (content, ext)
      | _ => none

/-- The as_completed collection loop of process_urls (lines 191 to 208):
a fetched image is written to a generated path and recorded under its
URL, a failed fetch is only logged.  File writes are modelled as
succeeding; the generated unique path is abstracted as savePath.  Every
recorded value is a function of the URL alone, so the fold order (here
submission order) is irrelevant to the mapping produced. -/
def processUrlsLoop (fetch : String → Option (List Nat × String))
    (savePath : String → String → String) : List String → Dict → Dict
  | [], results => results
  | u :: rest, results =>
    match fetch u with
    | some r => processUrlsLoop fetch savePath rest (dictInsert results u (savePath u r.2))
    | none => processUrlsLoop fetch savePath rest results

/-- ImageProcessor.process_urls (lines 183 to 209). -/
def process_urls (resp : String → Except String (List (List Nat)))
    (savePath : String → String → String) (urls : List String) : Dict :=
  processUrlsLoop (fun u => fetch_image (resp u)) savePath urls []

/-- Concrete transport for witnesses: one URL answers with a twelve byte
JPEG-signed body, every other URL fails. -/
def respW : String → Except String (List (List Nat)) :=
  fun u => if u == "http://h/a.jpg" then
    .ok [[0xff, 0xd8, 0xff, 0, 0, 0, 0, 0, 0, 0, 0, 0]] else .error "boom"

def saveW : String → String → String :=
  fun u ext => "/tmp/img_" ++ u ++ "." ++ ext

end ImageProcessor

/-! ## Executable model of json.loads and json.dumps(indent = 2)

Used by the best-effort JSON formatting step of OCRProcessor.process_image
(ocr_processor.py lines 333 to 338 and 249 to 255).  Numbers and string
bodies are kept as their source lexemes; the claims below depend only on
whether a parse succeeds and on the fact that a success is re-serialised,
never on number or escape normalisation. -/

inductive PyJson where
  | null : PyJson
  | boolean : Bool → PyJson
  | num : String → PyJson
  | str : String → PyJson
  | arr : List PyJson → PyJson
  | obj : List (String × PyJson) → PyJson

def isJsonWs (c : Char) : Bool :=
  c = ' ' || c = '\t' || c = '\n' || c = '\r'

def skipWs (l : List Char) : List Char := l.dropWhile isJsonWs

def isHexChar (c : Char) : Bool :=
  c.isDigit || ('a' ≤ c && c ≤ 'f') || ('A' ≤ c && c ≤ 'F')

def lexInt : List Char → Option (List Char × List Char)
  | [] => none
  | c :: t =>
    if c = '0' then some (['0'], t)
    else if c.isDigit then some (c :: t.takeWhile Char.isDigit, t.dropWhile Char.isDigit)
    else none

def lexFracPart : List Char → Option (List Char × List Char)
  | '.' :: t =>
    match t.takeWhile Char.isDigit with
    | [] => none
    | ds => some ('.' :: ds, t.dropWhile Char.isDigit)
  | l => some ([], l)

def lexExpPart : List Char → Option (List Char × List Char)
  | [] => some ([], [])
  | c :: t =>
    if c = 'e' || c = 'E' then
      let st := match t with
        | s :: t2 => if s = '+' || s = '-' then ([s], t2) else (([] : List Char), t)
        | [] => ([], [])
      match st.2.takeWhile Char.isDigit with
      | [] => none
      | ds => some (c :: (st.1 ++ ds), st.2.dropWhile Char.isDigit)
    else some ([], c :: t)

def lexNumber (l : List Char) : Option (List Char × List Char) :=
  let nt := match l with
    | '-' :: t => ((['-'] : List Char), t)
    | _ => ([], l)
  match lexInt nt.2 with
  | none => none
  | some ir =>
    match lexFracPart ir.2 with
    | none => none
    | some fr =>
      match lexExpPart fr.2 with
      | none => none
      | some er => some (nt.1 ++ ir.1 ++ fr.1 ++ er.1, er.2)

/-- String-body lexer: consumes up to the closing quote, validating the
JSON escape forms and rejecting raw control characters, and returns the
body as written. -/
def lexStringBody : List Char → Option (List Char × List Char)
  | [] => none
  | c :: t =>
    if c = '\"' then some ([], t)
    else if c = '\\' then
      match t with
      | [] => none
      | e :: t2 =>
        if e = '\"' || e = '\\' || e = '/' || e = 'b' || e = 'f' || e = 'n' || e = 'r' || e = 't' then
          match lexStringBody t2 with
          | some cr => some (c :: e :: cr.1, cr.2)
          | none => none
        else if e = 'u' then
          match t2 with
          | h1 :: h2 :: h3 :: h4 :: t3 =>
            if isHexChar h1 && isHexChar h2 && isHexChar h3 && isHexChar h4 then
              match lexStringBody t3 with
              | some cr => some (c :: e :: h1 :: h2 :: h3 :: h4 :: cr.1, cr.2)
              | none => none
            else none
          | _ => none
        else none
    else if c.toNat < 32 then none
    else
      match lexStringBody t with
      | some cr => some (c :: cr.1, cr.2)
      | none => none
termination_by l => l.length
decreasing_by all_goals simp_arith [List.length_cons]

def lbrace : Char := Char.ofNat 123

def rbrace : Char := Char.ofNat 125

mutual

/-- Recursive-descent JSON value parser.  The fuel argument only bounds
recursion depth for termination; the top-level entry point supplies more
fuel than any input of that length can consume. -/
def parseValue : Nat → List Char → Option (PyJson × List Char)
  | 0, _ => none
  | fuel + 1, l =>
    match skipWs l with
    | [] => none
    | c :: t =>
      if c = 'n' then
        match t with
        | 'u' :: 'l' :: 'l' :: r => some (.null, r)
        | _ => none
      else if c = 't' then
        match t with
        | 'r' :: 'u' :: 'e' :: r => some (.boolean true, r)
        | _ => none
      else if c = 'f' then
        match t with
        | 'a' :: 'l' :: 's' :: 'e' :: r => some (.boolean false, r)
        | _ => none
      else if c = '\"' then
        match lexStringBody t with
        | some cr => some (.str (String.mk cr.1), cr.2)
        | none => none
      else if c = '[' then
        match skipWs t with
        | [] => none
        | d :: r => if d = ']' then some (.arr [], r) else
            match parseItems fuel (d :: r) with
            | some xr => some (.arr xr.1, xr.2)
            | none => none
      else if c = lbrace then
        match skipWs t with
        | [] => none
        | d :: r => if d = rbrace then some (.obj [], r) else
            match parseMembers fuel (d :: r) with
            | some mr => some (.obj mr.1, mr.2)
            | none => none
      else if c = '-' || c.isDigit then
        match lexNumber (c :: t) with
        | some dr => some (.num (String.mk dr.1), dr.2)
        | none => none
      else none

def parseItems : Nat → List Char → Option (List PyJson × List Char)
  | 0, _ => none
  | fuel + 1, l =>
    match parseValue fuel l with
    | none => none
    | some vr =>
      match skipWs vr.2 with
      | [] => none
      | d :: r2 =>
        if d = ',' then
          match parseItems fuel r2 with
          | some sr => some (vr.1 :: sr.1, sr.2)
          | none => none
        else if d = ']' then some ([vr.1], r2)
        else none

def parseMembers : Nat → List Char → Option (List (String × PyJson) × List Char)
  | 0, _ => none
  | fuel + 1, l =>
    match skipWs l with
    | '\"' :: t =>
      match lexStringBody t with
      | none => none
      | some kr =>
        match skipWs kr.2 with
        | ':' :: r2 =>
          match parseValue fuel r2 with
          | none => none
          | some vr =>
            match skipWs vr.2 with
            | [] => none
            | d :: r4 =>
              if d = ',' then
                match parseMembers fuel r4 with
                | some mr => some ((String.mk kr.1, vr.1) :: mr.1, mr.2)
                | none => none
              else if d = rbrace then some ([(String.mk kr.1, vr.1)], r4)
              else none
        | _ => none
    | _ => none

end

/-- json.loads: parse one value and require only whitespace to remain. -/
def pyJsonLoads (s : String) : Option PyJson :=
  match parseValue (2 * s.length + 8) s.toList with
  | some jr => if (skipWs jr.2).isEmpty then some jr.1 else none
  | none => none

def jsonIndent (n : Nat) : String := String.mk (List.replicate n ' ')

mutual

/-- json.dumps with indent two: containers open on their own line, each
element indented two further columns, keys printed as key colon space
value. -/
def dumpsValue : PyJson → Nat → String
  | .null, _ => "null"
  | .boolean true, _ => "true"
  | .boolean false, _ => "false"
  | .num s, _ => s
  | .str s, _ => "\"" ++ s ++ "\""
  | .arr [], _ => "[]"
  | .arr (x :: xs), ind =>
    "[\n" ++ jsonIndent (ind + 2) ++ dumpsValue x (ind + 2) ++ dumpsArrRest xs (ind + 2) ++
      "\n" ++ jsonIndent ind ++ "]"
  | .obj [], _ => "\x7b\x7d"
  | .obj (f :: fs), ind =>
    "\x7b\n" ++ jsonIndent (ind + 2) ++ "\"" ++ f.1 ++ "\": " ++ dumpsValue f.2 (ind + 2) ++
      dumpsObjRest fs (ind + 2) ++ "\n" ++ jsonIndent ind ++ "\x7d"

def dumpsArrRest : List PyJson → Nat → String
  | [], _ => ""
  | x :: xs, ind => ",\n" ++ jsonIndent ind ++ dumpsValue x ind ++ dumpsArrRest xs ind

def dumpsObjRest : List (String × PyJson) → Nat → String
  | [], _ => ""
  | f :: fs, ind =>
    ",\n" ++ jsonIndent ind ++ "\"" ++ f.1 ++ "\": " ++ dumpsValue f.2 ind ++ dumpsObjRest fs ind

end

def pyJsonDumps (j : PyJson) : String := dumpsValue j 0

/-! ## OCRProcessor (ocr_processor.py) -/

namespace OCRProcessor

structure OcrState where
  model_name : String
  base_url : String
  max_workers : Int
  api_headers : Option String
deriving DecidableEq

/-- OCRProcessor.__init__ (ocr_processor.py lines 17 to 29): stores the
configuration and builds the bearer header when an api key is present;
no argument is validated, so construction never fails. -/
def init (model_name base_url : String) (api_key : Option String) (max_workers : Int) :
    Except String OcrState :=
  .ok { model_name := model_name, base_url := base_url, max_workers := max_workers,
        api_headers :=
          match api_key with
          | none => none
          | some k => if k.length = 0 then none else some ("Bearer " ++ k) }

/-- OCRProcessor._is_url (lines 31 to 33). -/
def isUrl (path : String) : Bool :=
  strStartsWith path "http://" || strStartsWith path "https://"

/-- str.lower. -/
def pyLower (s : String) : String := String.mk (s.toList.map Char.toLower)

def strEndsWith (s suffixStr : String) : Bool :=
  startsWithList suffixStr.toList.reverse s.toList.reverse

/-- The PDF test of line 155: local_path.lower().endswith of dot pdf. -/
def isPdfPath (p : String) : Bool := strEndsWith (pyLower p) ".pdf"

/-- The effectful collaborators of process_image.  Each field stands for
one Python call that can raise: _download_file (ValueError on any
transport failure), os.path.exists, _pdf_to_images (ValueError when
pymupdf cannot open or render), _preprocess_image (ValueError when cv2
cannot decode, abstracting the OpenCV pipeline), _encode_image (an OSError
when the file cannot be read), and the requests.post plus
raise_for_status plus response field extraction of the inference call,
with the selected prompt folded into the environment. -/
structure OcrEnv where
  download : String → Except String String
  fileExists : String → Bool
  pdfToImages : String → Except String (List String)
  preprocessImage : String → String → Except String String
  encodeImage : String → Except String String
  infer : String → Except String String

/-- The str.join of line 248. -/
def pyJoin (sep : String) : List String → String
  | [] => ""
  | [a] => a
  | a :: b :: rest => a ++ sep ++ pyJoin sep (b :: rest)

/-- The best-effort JSON formatting of lines 333 to 338 (and 249 to 255
for the PDF branch): only for format_type json, parse and pretty-print,
returning the raw text when parsing fails. -/
def formatJson (format_type result : String) : String :=
  if format_type = "json" then
    match pyJsonLoads result with
    | some j => pyJsonDumps j
    | none => result
  else result

/-- One page or image through preprocess (when requested), base64
encoding, and inference (lines 160 to 237 for pages, 257 to 331 for
single images). -/
def processPage (env : OcrEnv) (preprocess : Bool) (language : String) (page : String) :
    Except String String :=
  match (if preprocess then env.preprocessImage page language else .ok page) with
  | .error e => .error e
  | .ok p =>
    match env.encodeImage p with
    | .error e => .error e
    | .ok b64 => env.infer b64

/-- The sequential page loop of lines 159 to 246: pages are processed in
list order, each response is prefixed with Page then the one-based index,
and the first exception aborts the whole call (the partial responses list
is discarded). -/
def processPdfPages (env : OcrEnv) (preprocess : Bool) (language : String) :
    Nat → List String → Except String (List String)
  | _, [] => .ok []
  | idx, pg :: rest =>
    match processPage env preprocess language pg with
    | .error e => .error e
    | .ok res =>
      match processPdfPages env preprocess language (idx + 1) rest with
      | .error e => .error e
      | .ok out => .ok (("Page " ++ toString (idx + 1) ++ ":\n" ++ res) :: out)

/-- Specification form of the page labelling: element k of
labelPages idx rs is Page (idx + k + 1) colon newline then rs element k. -/
def labelPages : Nat → List String → List String
  | _, [] => []
  | idx, r :: rest => ("Page " ++ toString (idx + 1) ++ ":\n" ++ r) :: labelPages (idx + 1) rest

/-- Error-propagating map, used to state hypotheses about per-page
results. -/
def mapPages (f : String → Except String String) : List String → Except String (List String)
  | [] => .ok []
  | p :: ps =>
    match f p with
    | .error e => .error e
    | .ok r =>
      match mapPages f ps with
      | .error e => .error e
      | .ok rs => .ok (r :: rs)

/-- The body of the try block of process_image (lines 143 to 340):
download when the input is a URL, require the local file to exist, then
either the PDF page loop joined by newlines or the single-image path,
both followed by the best-effort JSON formatting. -/
def pipelineResult (env : OcrEnv) (image_path format_type : String) (preprocess : Bool)
    (language : String) : Except String String :=
  match (if isUrl image_path then env.download image_path else .ok image_path) with
  | .error e => .error e
  | .ok local_path =>
    if env.fileExists local_path then
      if isPdfPath local_path then
        match env.pdfToImages local_path with
        | .error e => .error e
        | .ok pages =>
          match processPdfPages env preprocess language 0 pages with
          | .error e => .error e
          | .ok resps => .ok (formatJson format_type (pyJoin "\n" resps))
      else
        match processPage env preprocess language local_path with
        | .error e => .error e
        | .ok res => .ok (formatJson format_type res)
    else .error ("File not found: " ++ local_path)

/-- OCRProcessor.process_image (lines 128 to 349): the except clause of
line 341 turns every exception into the returned string Error processing
image colon space plus the message, so the function always returns a
string. -/
def process_image (env : OcrEnv) (image_path format_type : String) (preprocess : Bool)
    (language : String) : String :=
  match pipelineResult env image_path format_type preprocess language with
  | .ok s => s
  | .error e => "Error processing image: " ++ e

/-- The filesystem operations used by the resolution phase of
process_batch: Path.is_dir, Path.exists, and the glob of one extension
pattern (whose results passed the is_file check). -/
structure FsEnv where
  isDir : String → Bool
  existsPath : String → Bool
  glob : String → Bool → String → List String

/-- The extension list of lines 383 and 398. -/
def image_exts : List String := [".png", ".jpg", ".jpeg", ".pdf", ".tiff"]

/-- Resolution of one reference (both branches of lines 376 to 404 run
this same logic per entry): URLs pass through, directories expand over
the extension list, existing files pass through, anything else resolves
to nothing. -/
def resolveOne (fs : FsEnv) (recursive : Bool) (path : String) : List String :=
  if isUrl path then [path]
  else if fs.isDir path then (image_exts.map (fun ext => fs.glob path recursive ext)).flatten
  else if fs.existsPath path then [path]
  else []

/-- Lines 374 to 404: a single string or a list of strings resolves to
the flat unit list. -/
def resolveInput (fs : FsEnv) (recursive : Bool) : String ⊕ List String → List String
  | .inl p => resolveOne fs recursive p
  | .inr ps => (ps.map (resolveOne fs recursive)).flatten

/-- The references as given by the caller, before resolution. -/
def inputRefs : String ⊕ List String → List String
  | .inl p => [p]
  | .inr ps => ps

/-- The as_completed collection loop of lines 417 to 423: a future that
returns lands in results, a future that raises lands in errors.  Values
are functions of the unit key alone, so folding in submission order
produces the same maps as any completion order. -/
def collectReport (runUnit : String → Except String String) : List String → Dict × Dict → Dict × Dict
  | [], acc => acc
  | p :: ps, acc =>
    match runUnit p with
    | .ok v => collectReport runUnit ps (dictInsert acc.1 p v, acc.2)
    | .error e => collectReport runUnit ps (acc.1, dictInsert acc.2 p e)

/-- Repeated dict assignment, the specification form of the collection
loop when no unit raises. -/
def insertAll (f : String → String) : List String → Dict → Dict
  | [], m => m
  | p :: ps, m => insertAll f ps (dictInsert m p (f p))

structure Statistics where
  total : Nat
  successful : Nat
  failed : Nat
deriving DecidableEq

structure BatchReport where
  results : Dict
  errors : Dict
  statistics : Statistics
deriving DecidableEq

/-- OCRProcessor.process_batch (lines 351 to 433): resolve the input to a
unit list, run process_image for every unit (process_image is total, so
every future returns and runUnit is always ok), and assemble the report
of lines 425 to 432. -/
def process_batch (env : OcrEnv) (fs : FsEnv) (input_path : String ⊕ List String)
    (format_type : String) (recursive preprocess : Bool) (language : String) : BatchReport :=
  let image_paths := resolveInput fs recursive input_path
  let re := collectReport (fun p => .ok (process_image env p format_type preprocess language))
    image_paths ([], [])
  { results := re.1, errors := re.2,
    statistics :=
      { total := image_paths.length, successful := re.1.length, failed := re.2.length } }

/-- Environment for witnesses in which every collaborator succeeds with a
distinctive string. -/
def envOK : OcrEnv :=
  { download := fun u => .ok ("/tmp/dl_" ++ u)
    fileExists := fun _ => true
    pdfToImages := fun p => .ok [p ++ "_page0.png", p ++ "_page1.png", p ++ "_page2.png"]
    preprocessImage := fun p _ => .ok (p ++ "_preprocessed.jpg")
    encodeImage := fun p => .ok ("b64:" ++ p)
    infer := fun b => .ok ("text:" ++ b) }

/-- Environment in which every download raises, as _download_file does on
any transport failure. -/
def envDl : OcrEnv :=
  { envOK with download := fun u => .error ("Failed to download " ++ u ++ ": boom") }

/-- Environment in which the inference endpoint answers with text that is
not JSON. -/
def envNJ : OcrEnv :=
  { envOK with infer := fun _ => .ok "not json" }

/-- Filesystem for witnesses: no directories, the single existing file a. -/
def fsA : FsEnv :=
  { isDir := fun _ => false
    existsPath := fun p => p == "a"
    glob := fun _ _ _ => [] }

end OCRProcessor

/-! ## Generic list and dict lemmas -/

theorem mem_dropWhile {α : Type} (p : α → Bool) (l : List α) (a : α)
    (h : a ∈ l.dropWhile p) : a ∈ l := by
  induction l with
  | nil => simp [List.dropWhile] at h
  | cons c rest ih =>
    by_cases hc : p c
    · simp only [List.dropWhile, hc] at h
      exact List.mem_cons_of_mem _ (ih h)
    · simpa [List.dropWhile, hc] using h

theorem mem_take {α : Type} (n : Nat) (l : List α) (a : α) (h : a ∈ l.take n) : a ∈ l := by
  induction l generalizing n with
  | nil => simpa using h
  | cons c rest ih =>
    cases n with
    | zero => simp [List.take] at h
    | succ m =>
      simp only [List.take] at h
      rcases List.mem_cons.mp h with h1 | h2
      · rw [h1]; exact List.mem_cons_self _ _
      · exact List.mem_cons_of_mem _ (ih m h2)

theorem take_ne_nil {α : Type} (n : Nat) (l : List α) (hl : l ≠ []) (hn : n ≠ 0) :
    l.take n ≠ [] := by
  cases l with
  | nil => exact absurd rfl hl
  | cons c rest =>
    cases n with
    | zero => exact absurd rfl hn
    | succ m => simp [List.take]

theorem hasKey_nil (x : String) : hasKey [] x = false := rfl

theorem hasKey_cons (p : String × String) (m : Dict) (x : String) :
    hasKey (p :: m) x = ((p.1 == x) || hasKey m x) := rfl

theorem hasKey_dictInsert (m : Dict) (k v x : String) :
    hasKey (dictInsert m k v) x = true ↔ x = k ∨ hasKey m x = true := by
  induction m with
  | nil =>
    simp only [dictInsert, hasKey_cons, hasKey_nil, Bool.or_false, beq_iff_eq]
    constructor
    · intro h
      exact Or.inl h.symm
    · intro h
      rcases h with h | h
      · exact h.symm
      · cases h
  | cons p rest ih =>
    by_cases hpk : p.1 = k
    · simp only [dictInsert, if_pos hpk, hasKey_cons, Bool.or_eq_true, beq_iff_eq]
      constructor
      · intro h
        rcases h with h | h
        · exact Or.inl h.symm
        · exact Or.inr (Or.inr h)
      · intro h
        rcases h with h | h | h
        · exact Or.inl h.symm
        · exact Or.inl (hpk ▸ h)
        · exact Or.inr h
    · simp only [dictInsert, if_neg hpk, hasKey_cons, Bool.or_eq_true, beq_iff_eq, ih]
      tauto

theorem length_dictInsert_notMem (m : Dict) (k v : String) (h : hasKey m k = false) :
    (dictInsert m k v).length = m.length + 1 := by
  induction m with
  | nil => simp [dictInsert]
  | cons p rest ih =>
    rw [hasKey_cons, Bool.or_eq_false_iff] at h
    have hpk : ¬ p.1 = k := by simpa using h.1
    simp [dictInsert, if_neg hpk, ih h.2]

theorem lookupDict_dictInsert_self (m : Dict) (k v : String) :
    lookupDict (dictInsert m k v) k = some v := by
  induction m with
  | nil => simp [dictInsert, lookupDict]
  | cons p rest ih =>
    by_cases hpk : p.1 = k
    · simp [dictInsert, if_pos hpk, lookupDict]
    · have h1 : (p.1 == k) = false := by simpa using hpk
      simp only [dictInsert, if_neg hpk, lookupDict, List.find?, h1]
      exact ih

theorem lookupDict_dictInsert_ne (m : Dict) (k v x : String) (h : ¬ x = k) :
    lookupDict (dictInsert m k v) x = lookupDict m x := by
  induction m with
  | nil =>
    have h1 : (k == x) = false := by simpa using (fun he : k = x => h he.symm)
    simp [dictInsert, lookupDict, List.find?, h1]
  | cons p rest ih =>
    by_cases hpk : p.1 = k
    · have hkx : (k == x) = false := by simpa using (fun he : k = x => h he.symm)
      have hpx : (p.1 == x) = false := by rw [hpk]; exact hkx
      simp [dictInsert, if_pos hpk, lookupDict, List.find?, hkx, hpx]
    · by_cases hpx : p.1 = x
      · have h1 : (p.1 == x) = true := by simpa using hpx
        simp [dictInsert, if_neg hpk, lookupDict, List.find?, h1]
      · have h1 : (p.1 == x) = false := by simpa using hpx
        simp only [dictInsert, if_neg hpk, lookupDict, List.find?, h1]
        exact ih

/-! ## Sanitiser lemmas -/

namespace ImageProcessor

theorem replaceDangerous_no_sep (l : List Char) (c : Char) (hc : c ∈ replaceDangerous l) :
    ¬ c = '/' ∧ ¬ c = '\\' := by
  simp only [replaceDangerous, List.mem_map] at hc
  obtain ⟨a, _, ha⟩ := hc
  by_cases h : a ∈ dangerous_chars
  · rw [if_pos h] at ha
    rw [← ha]
    constructor <;> decide
  · rw [if_neg h] at ha
    rw [← ha]
    simp only [dangerous_chars, List.mem_cons, List.mem_singleton, not_or] at h
    exact ⟨h.2.1, h.1⟩

theorem mem_collapseWsAux (b : Bool) (l : List Char) (c : Char)
    (hc : c ∈ collapseWsAux b l) : c = '_' ∨ c ∈ l := by
  induction l generalizing b with
  | nil => simp [collapseWsAux] at hc
  | cons a rest ih =>
    cases b with
    | true =>
      by_cases hs : isSpaceChar a
      · rw [show collapseWsAux true (a :: rest) = collapseWsAux true rest from by
          simp [collapseWsAux, hs]] at hc
        rcases ih true hc with h1 | h2
        · exact Or.inl h1
        · exact Or.inr (List.mem_cons_of_mem _ h2)
      · have hsb : isSpaceChar a = false := by simpa using hs
        rw [show collapseWsAux true (a :: rest) = a :: collapseWsAux false rest from by
          simp [collapseWsAux, hsb]] at hc
        rcases List.mem_cons.mp hc with h1 | h2
        · exact Or.inr (by rw [h1]; exact List.mem_cons_self _ _)
        · rcases ih false h2 with h3 | h4
          · exact Or.inl h3
          · exact Or.inr (List.mem_cons_of_mem _ h4)
    | false =>
      by_cases hs : isSpaceChar a
      · rw [show collapseWsAux false (a :: rest) = '_' :: collapseWsAux true rest from by
          simp [collapseWsAux, hs]] at hc
        rcases List.mem_cons.mp hc with h1 | h2
        · exact Or.inl h1
        · rcases ih true h2 with h3 | h4
          · exact Or.inl h3
          · exact Or.inr (List.mem_cons_of_mem _ h4)
      · have hsb : isSpaceChar a = false := by simpa using hs
        rw [show collapseWsAux false (a :: rest) = a :: collapseWsAux false rest from by
          simp [collapseWsAux, hsb]] at hc
        rcases List.mem_cons.mp hc with h1 | h2
        · exact Or.inr (by rw [h1]; exact List.mem_cons_self _ _)
        · rcases ih false h2 with h3 | h4
          · exact Or.inl h3
          · exact Or.inr (List.mem_cons_of_mem _ h4)

theorem mem_pyStrip (l : List Char) (c : Char) (hc : c ∈ pyStrip l) : c ∈ l := by
  unfold pyStrip at hc
  rw [List.mem_reverse] at hc
  have h2 := mem_dropWhile _ _ _ hc
  rw [List.mem_reverse] at h2
  exact mem_dropWhile _ _ _ h2

theorem mem_rstripDots (l : List Char) (c : Char) (hc : c ∈ rstripDots l) : c ∈ l := by
  unfold rstripDots at hc
  rw [List.mem_reverse] at hc
  have h2 := mem_dropWhile _ _ _ hc
  rw [List.mem_reverse] at h2
  exact h2

theorem splitextPy_append (l : List Char) :
    (splitextPy l).1 ++ (splitextPy l).2 = l := by
  unfold splitextPy
  by_cases h1 : (l.reverse.takeWhile (fun c => ¬ c = '.')).length < l.length
  · rw [if_pos h1]
    by_cases h2 : (l.take (l.length - (l.reverse.takeWhile (fun c => ¬ c = '.')).length - 1)).any
        (fun c => ¬ c = '.')
    · rw [if_pos h2]
      exact List.take_append_drop _ l
    · rw [if_neg h2]
      simp
  · rw [if_neg h1]
    simp

theorem mem_pyTakeInt (k : Int) (l : List Char) (c : Char) (hc : c ∈ pyTakeInt k l) : c ∈ l := by
  unfold pyTakeInt at hc
  by_cases h : 0 ≤ k
  · rw [if_pos h] at hc
    exact mem_take _ _ _ hc
  · rw [if_neg h] at hc
    exact mem_take _ _ _ hc

theorem isHexChar_no_sep (c : Char) (h : isHexChar c = true) : ¬ c = '/' ∧ ¬ c = '\\' := by
  constructor
  · intro he
    rw [he] at h
    simp [isHexChar] at h
  · intro he
    rw [he] at h
    simp [isHexChar] at h

theorem sanitizeCore_safe (digest cleaned : List Char)
    (hd : ∀ c ∈ digest, isHexChar c = true)
    (hP : ∀ c ∈ cleaned, ¬ c = '/' ∧ ¬ c = '\\') :
    sanitizeCore digest cleaned ≠ [] ∧
    (sanitizeCore digest cleaned).length ≤ max_filename_length ∧
    ∀ c ∈ sanitizeCore digest cleaned, ¬ c = '/' ∧ ¬ c = '\\' := by
  unfold sanitizeCore
  by_cases hempty : cleaned.isEmpty = true
  · rw [if_pos hempty]
    refine ⟨?_, ?_, ?_⟩
    · have hu : String.toList "unnamed_" = 'u' :: "nnamed_".toList := rfl
      rw [hu]
      simp
    · have h8 : (digest.take 8).length ≤ 8 := by
        rw [List.length_take]
        exact Nat.min_le_left _ _
      rw [List.length_append]
      have hlen : (String.toList "unnamed_").length = 8 := rfl
      rw [hlen]
      unfold max_filename_length
      omega
    · intro c hc
      rcases List.mem_append.mp hc with h1 | h2
      · have hu : String.toList "unnamed_" = ['u','n','n','a','m','e','d','_'] := rfl
        rw [hu] at h1
        simp only [List.mem_cons, List.not_mem_nil, or_false] at h1
        rcases h1 with h|h|h|h|h|h|h|h <;> (subst h; exact ⟨by decide, by decide⟩)
      · exact isHexChar_no_sep c (hd c (mem_take _ _ _ h2))
  · rw [if_neg hempty]
    have hcl : cleaned ≠ [] := by
      intro h
      rw [h] at hempty
      exact hempty rfl
    have happ := splitextPy_append cleaned
    refine ⟨?_, ?_, ?_⟩
    · by_cases he : (splitextPy cleaned).2 = []
      · have hb : (splitextPy cleaned).1 = cleaned := by
          rw [he] at happ
          simpa using happ
        have hK : (max_filename_length : Int) - ((splitextPy cleaned).2.length : Int) - 1 =
            254 := by
          rw [he]
          norm_num [max_filename_length]
        rw [hK, hb, he]
        simp only [List.append_nil]
        apply take_ne_nil
        · unfold pyTakeInt
          rw [if_pos (by norm_num : (0:Int) ≤ 254)]
          apply take_ne_nil _ _ hcl
          decide
        · decide
      · apply take_ne_nil
        · intro h
          exact he (List.append_eq_nil.mp h).2
        · decide
    · rw [List.length_take]
      exact Nat.min_le_left _ _
    · intro c hc
      have h1 := mem_take _ _ _ hc
      rcases List.mem_append.mp h1 with h2 | h3
      · have h4 := mem_pyTakeInt _ _ _ h2
        exact hP c (happ ▸ List.mem_append_left _ h4)
      · exact hP c (happ ▸ List.mem_append_right _ h3)

/-! ## Acquisition orchestrator lemmas -/

theorem hasKey_processUrlsLoop (fetch : String → Option (List Nat × String))
    (savePath : String → String → String) (urls : List String) (results : Dict) (x : String) :
    hasKey (processUrlsLoop fetch savePath urls results) x = true ↔
      (x ∈ urls ∧ (fetch x).isSome = true) ∨ hasKey results x = true := by
  induction urls generalizing results with
  | nil => simp [processUrlsLoop]
  | cons u rest ih =>
    by_cases hx : x = u
    · subst hx
      cases hf : fetch x with
      | some r =>
        simp only [processUrlsLoop, hf, ih, hasKey_dictInsert, List.mem_cons]
        simp [hf]
      | none =>
        simp only [processUrlsLoop, hf, ih, List.mem_cons]
        simp [hf]
    · cases hf : fetch u with
      | some r =>
        simp only [processUrlsLoop, hf, ih, hasKey_dictInsert, List.mem_cons]
        constructor
        · intro h
          rcases h with h1 | h2 | h3
          · exact Or.inl ⟨Or.inr h1.1, h1.2⟩
          · exact absurd h2 hx
          · exact Or.inr h3
        · intro h
          rcases h with ⟨h1 | h1, h2⟩ | h3
          · exact absurd h1 hx
          · exact Or.inl ⟨h1, h2⟩
          · exact Or.inr (Or.inr h3)
      | none =>
        simp only [processUrlsLoop, hf, ih, List.mem_cons]
        constructor
        · intro h
          rcases h with h1 | h2
          · exact Or.inl ⟨Or.inr h1.1, h1.2⟩
          · exact Or.inr h2
        · intro h
          rcases h with ⟨h1 | h1, h2⟩ | h3
          · exact absurd h1 hx
          · exact Or.inl ⟨h1, h2⟩
          · exact Or.inr h3

theorem length_processUrlsLoop (fetch : String → Option (List Nat × String))
    (savePath : String → String → String) (urls : List String) (results : Dict)
    (hnd : urls.Nodup) (hdisj : ∀ u ∈ urls, hasKey results u = false) :
    (processUrlsLoop fetch savePath urls results).length =
      results.length + (urls.filter (fun u => (fetch u).isSome)).length := by
  induction urls generalizing results with
  | nil => rfl
  | cons u rest ih =>
    rw [List.nodup_cons] at hnd
    have hm : hasKey results u = false := hdisj u (List.mem_cons_self u rest)
    cases hf : fetch u with
    | some r =>
      have hdisj2 : ∀ q ∈ rest, hasKey (dictInsert results u (savePath u r.2)) q = false := by
        intro q hq
        have hqp : ¬ q = u := fun he => hnd.1 (he ▸ hq)
        have hqm : hasKey results q = false := hdisj q (List.mem_cons_of_mem _ hq)
        by_cases hk : hasKey (dictInsert results u (savePath u r.2)) q = true
        · rcases (hasKey_dictInsert results u (savePath u r.2) q).mp hk with h1 | h2
          · exact absurd h1 hqp
          · rw [hqm] at h2
            cases h2
        · simpa using hk
      simp only [processUrlsLoop, hf]
      rw [ih (dictInsert results u (savePath u r.2)) hnd.2 hdisj2,
        length_dictInsert_notMem results u (savePath u r.2) hm]
      have : (List.filter (fun u => (fetch u).isSome) (u :: rest)).length =
          (List.filter (fun u => (fetch u).isSome) rest).length + 1 := by
        simp [List.filter, hf]
      omega
    | none =>
      simp only [processUrlsLoop, hf]
      rw [ih results hnd.2 (fun q hq => hdisj q (List.mem_cons_of_mem _ hq))]
      have : (List.filter (fun u => (fetch u).isSome) (u :: rest)).length =
          (List.filter (fun u => (fetch u).isSome) rest).length := by
        simp [List.filter, hf]
      omega

theorem lookup_processUrlsLoop_notMem (fetch : String → Option (List Nat × String))
    (savePath : String → String → String) (urls : List String) (results : Dict) (x : String)
    (h : x ∉ urls) :
    lookupDict (processUrlsLoop fetch savePath urls results) x = lookupDict results x := by
  induction urls generalizing results with
  | nil => rfl
  | cons u rest ih =>
    simp only [List.mem_cons, not_or] at h
    cases hf : fetch u with
    | some r =>
      simp only [processUrlsLoop, hf]
      rw [ih _ h.2, lookupDict_dictInsert_ne _ _ _ _ h.1]
    | none =>
      simp only [processUrlsLoop, hf]
      exact ih _ h.2

theorem lookup_processUrlsLoop_mem (fetch : String → Option (List Nat × String))
    (savePath : String → String → String) (urls : List String) (results : Dict)
    (u : String) (c : List Nat) (ext : String)
    (hnd : urls.Nodup) (hu : u ∈ urls) (hf : fetch u = some (c, ext)) :
    lookupDict (processUrlsLoop fetch savePath urls results) u = some (savePath u ext) := by
  induction urls generalizing results with
  | nil => cases hu
  | cons v rest ih =>
    rw [List.nodup_cons] at hnd
    by_cases hv : u = v
    · subst hv
      simp only [processUrlsLoop, hf]
      rw [lookup_processUrlsLoop_notMem _ _ _ _ _ hnd.1, lookupDict_dictInsert_self]
    · have hur : u ∈ rest := by
        rcases List.mem_cons.mp hu with h1 | h2
        · exact absurd h1 hv
        · exact h2
      cases hfv : fetch v with
      | some r =>
        simp only [processUrlsLoop, hfv]
        exact ih _ hnd.2 hur
      | none =>
        simp only [processUrlsLoop, hfv]
        exact ih _ hnd.2 hur

theorem filter_isSome_isNone_length (fetch : String → Option (List Nat × String))
    (urls : List String) :
    (urls.filter (fun u => (fetch u).isSome)).length +
      (urls.filter (fun u => (fetch u).isNone)).length = urls.length := by
  induction urls with
  | nil => rfl
  | cons u rest ih =>
    cases hf : fetch u with
    | some r => simp [List.filter, hf]; omega
    | none => simp [List.filter, hf]; omega

end ImageProcessor

/-! ## Parser failure lemmas -/

theorem parseValue_P_none (fuel : Nat) (l t : List Char) (h : skipWs l = 'P' :: t) :
    parseValue fuel l = none := by
  cases fuel with
  | zero => rfl
  | succ n =>
    simp [parseValue, h, lbrace]

theorem parseValue_nil_none (fuel : Nat) (l : List Char) (h : skipWs l = []) :
    parseValue fuel l = none := by
  cases fuel with
  | zero => rfl
  | succ n => simp [parseValue, h]

/-! ## Batch orchestrator lemmas -/

namespace OCRProcessor

theorem collectReport_ok (f : String → String) (ps : List String) (acc : Dict × Dict) :
    collectReport (fun p => .ok (f p)) ps acc = (insertAll f ps acc.1, acc.2) := by
  induction ps generalizing acc with
  | nil => rfl
  | cons p rest ih => simpa [collectReport, insertAll] using ih (dictInsert acc.1 p (f p), acc.2)

theorem hasKey_insertAll (f : String → String) (ps : List String) (m : Dict) (x : String) :
    hasKey (insertAll f ps m) x = true ↔ x ∈ ps ∨ hasKey m x = true := by
  induction ps generalizing m with
  | nil => simp [insertAll]
  | cons p rest ih =>
    simp only [insertAll, ih, hasKey_dictInsert, List.mem_cons]
    tauto

theorem lookup_insertAll_notMem (f : String → String) (ps : List String) (m : Dict) (x : String)
    (h : x ∉ ps) : lookupDict (insertAll f ps m) x = lookupDict m x := by
  induction ps generalizing m with
  | nil => rfl
  | cons p rest ih =>
    simp only [List.mem_cons, not_or] at h
    simp only [insertAll]
    rw [ih _ h.2, lookupDict_dictInsert_ne _ _ _ _ h.1]

theorem lookup_insertAll_mem (f : String → String) (ps : List String) (m : Dict) (x : String)
    (h : x ∈ ps) : lookupDict (insertAll f ps m) x = some (f x) := by
  induction ps generalizing m with
  | nil => cases h
  | cons p rest ih =>
    by_cases hr : x ∈ rest
    · simp only [insertAll]
      exact ih _ hr
    · have hx : x = p := by
        rcases List.mem_cons.mp h with h1 | h2
        · exact h1
        · exact absurd h2 hr
      subst hx
      simp only [insertAll]
      rw [lookup_insertAll_notMem _ _ _ _ hr, lookupDict_dictInsert_self]

theorem length_insertAll (f : String → String) (ps : List String) (m : Dict)
    (hnd : ps.Nodup) (hdisj : ∀ p ∈ ps, hasKey m p = false) :
    (insertAll f ps m).length = m.length + ps.length := by
  induction ps generalizing m with
  | nil => rfl
  | cons p rest ih =>
    rw [List.nodup_cons] at hnd
    have hm : hasKey m p = false := hdisj p (List.mem_cons_self p rest)
    have hlen := length_dictInsert_notMem m p (f p) hm
    have hdisj2 : ∀ q ∈ rest, hasKey (dictInsert m p (f p)) q = false := by
      intro q hq
      have hqp : ¬ q = p := fun he => hnd.1 (he ▸ hq)
      have hqm : hasKey m q = false := hdisj q (List.mem_cons_of_mem _ hq)
      by_cases hk : hasKey (dictInsert m p (f p)) q = true
      · rcases (hasKey_dictInsert m p (f p) q).mp hk with h1 | h2
        · exact absurd h1 hqp
        · rw [hqm] at h2
          cases h2
      · simpa using hk
    simp only [insertAll, List.length_cons]
    rw [ih (dictInsert m p (f p)) hnd.2 hdisj2, hlen]
    omega

theorem process_batch_results (env : OcrEnv) (fs : FsEnv) (input : String ⊕ List String)
    (fmt : String) (rec pre : Bool) (lang : String) :
    process_batch env fs input fmt rec pre lang =
      { results := insertAll (fun p => process_image env p fmt pre lang)
          (resolveInput fs rec input) []
        errors := []
        statistics :=
          { total := (resolveInput fs rec input).length
            successful := (insertAll (fun p => process_image env p fmt pre lang)
              (resolveInput fs rec input) []).length
            failed := 0 } } := by
  unfold process_batch
  simp only [collectReport_ok, List.length_nil]

theorem skipWs_P (t : List Char) : skipWs ('P' :: t) = 'P' :: t := by
  simp [skipWs, List.dropWhile, isJsonWs]

theorem mapPages_labels (env : OcrEnv) (pre : Bool) (lang : String) (pages rs : List String)
    (h : mapPages (processPage env pre lang) pages = .ok rs) :
    ∀ idx, processPdfPages env pre lang idx pages = .ok (labelPages idx rs) := by
  induction pages generalizing rs with
  | nil =>
    intro idx
    simp only [mapPages] at h
    cases h
    rfl
  | cons p ps ih =>
    intro idx
    simp only [mapPages] at h
    cases hp : processPage env pre lang p with
    | error e => rw [hp] at h; cases h
    | ok r =>
      rw [hp] at h
      cases hps : mapPages (processPage env pre lang) ps with
      | error e => rw [hps] at h; cases h
      | ok rs2 =>
        rw [hps] at h
        cases h
        simp only [processPdfPages, hp, ih rs2 hps (idx + 1), labelPages]

theorem mapPages_length (f : String → Except String String) (pages rs : List String)
    (h : mapPages f pages = .ok rs) : rs.length = pages.length := by
  induction pages generalizing rs with
  | nil => simp only [mapPages] at h; cases h; rfl
  | cons p ps ih =>
    simp only [mapPages] at h
    cases hp : f p with
    | error e => rw [hp] at h; cases h
    | ok r =>
      rw [hp] at h
      cases hps : mapPages f ps with
      | error e => rw [hps] at h; cases h
      | ok rs2 =>
        rw [hps] at h
        cases h
        simp [ih rs2 hps]

theorem labelPages_get? (rs : List String) (idx k : Nat) :
    (labelPages idx rs).get? k =
      (rs.get? k).map (fun r => "Page " ++ toString (idx + k + 1) ++ ":\n" ++ r) := by
  induction rs generalizing idx k with
  | nil => simp [labelPages]
  | cons r rest ih =>
    cases k with
    | zero => simp [labelPages]
    | succ k2 =>
      simp only [labelPages, List.get?, ih rest.length.succ, ih (idx + 1) k2]
      have : idx + 1 + k2 = idx + (k2 + 1) := by omega
      rw [this]

theorem pyJoin_cons_toList (a : String) (rest : List String) :
    ∃ t, (pyJoin "\n" (a :: rest)).toList = a.toList ++ t := by
  cases rest with
  | nil => exact ⟨[], by simp [pyJoin]⟩
  | cons b r2 =>
    refine ⟨("\n" ++ pyJoin "\n" (b :: r2)).toList, ?_⟩
    simp [pyJoin, String.toList]

theorem pyJsonLoads_labelPages_none (rs : List String) :
    pyJsonLoads (pyJoin "\n" (labelPages 0 rs)) = none := by
  cases rs with
  | nil =>
    rfl
  | cons r rest =>
    simp only [labelPages]
    obtain ⟨t, ht⟩ := pyJoin_cons_toList ("Page " ++ toString (0 + 1) ++ ":\n" ++ r)
      (labelPages 1 rest)
    have hP : ∃ t2, (pyJoin "\n"
        (("Page " ++ toString (0 + 1) ++ ":\n" ++ r) :: labelPages 1 rest)).toList =
        'P' :: t2 := by
      rw [ht]
      have hd : (toString (0 + 1 : Nat)).data = ['1'] := rfl
      have : ("Page " ++ toString (0 + 1) ++ ":\n" ++ r).toList =
          'P' :: ("age 1:\n" ++ r).toList := by
        simp [String.toList, hd]
      rw [this]
      exact ⟨("age 1:\n" ++ r).toList ++ t, by simp⟩
    obtain ⟨t2, ht2⟩ := hP
    unfold pyJsonLoads
    rw [parseValue_P_none _ _ t2]
    rw [ht2, skipWs_P]

theorem mem_resolveOne (fs : FsEnv) (rec : Bool) (q p : String)
    (hwf : ∀ d r e x, x ∈ fs.glob d r e → fs.existsPath x = true)
    (h : p ∈ resolveOne fs rec q) : isUrl p = true ∨ fs.existsPath p = true := by
  unfold resolveOne at h
  by_cases h1 : isUrl q = true
  · rw [if_pos h1] at h
    rw [List.mem_singleton] at h
    exact Or.inl (h ▸ h1)
  · rw [if_neg h1] at h
    by_cases h2 : fs.isDir q = true
    · rw [if_pos h2] at h
      rw [List.mem_flatten] at h
      obtain ⟨chunk, hchunk, hp⟩ := h
      rw [List.mem_map] at hchunk
      obtain ⟨ext, _, he⟩ := hchunk
      exact Or.inr (hwf _ _ _ _ (he ▸ hp))
    · rw [if_neg h2] at h
      by_cases h3 : fs.existsPath q = true
      · rw [if_pos h3] at h
        rw [List.mem_singleton] at h
        exact Or.inr (h ▸ h3)
      · rw [if_neg h3] at h
        cases h

theorem mem_resolveInput (fs : FsEnv) (rec : Bool) (input : String ⊕ List String) (p : String)
    (hwf : ∀ d r e x, x ∈ fs.glob d r e → fs.existsPath x = true)
    (h : p ∈ resolveInput fs rec input) : isUrl p = true ∨ fs.existsPath p = true := by
  cases input with
  | inl s => exact mem_resolveOne fs rec s p hwf h
  | inr l =>
    unfold resolveInput at h
    rw [List.mem_flatten] at h
    obtain ⟨chunk, hchunk, hp⟩ := h
    rw [List.mem_map] at hchunk
    obtain ⟨q, _, he⟩ := hchunk
    exact mem_resolveOne fs rec q p hwf (he ▸ hp)

end OCRProcessor

/-! ## Claim theorems -/

namespace OCRProcessor

/-- Claim C1, amended: in every report returned by process_batch, each
resolved unit id is a key of exactly one of results and errors (never
both), and whenever the resolved unit list is free of duplicates the
statistics satisfy successful plus failed equals total.  The original
claim asserted the arithmetic identity even for duplicated unit ids,
which the counterexample below refutes: duplicate ids overwrite one map
entry while total counts list positions. -/
theorem C1_batch_report_invariant (env : OcrEnv) (fs : FsEnv) (input : String ⊕ List String)
    (fmt : String) (rec pre : Bool) (lang : String) (p : String) :
    (p ∈ resolveInput fs rec input →
      ((hasKey (process_batch env fs input fmt rec pre lang).results p = true ∧
        hasKey (process_batch env fs input fmt rec pre lang).errors p = false) ∨
       (hasKey (process_batch env fs input fmt rec pre lang).results p = false ∧
        hasKey (process_batch env fs input fmt rec pre lang).errors p = true))) ∧
    ((resolveInput fs rec input).Nodup →
      (process_batch env fs input fmt rec pre lang).statistics.successful +
        (process_batch env fs input fmt rec pre lang).statistics.failed =
        (process_batch env fs input fmt rec pre lang).statistics.total) := by
  rw [process_batch_results]
  constructor
  · intro hp
    left
    exact ⟨(hasKey_insertAll _ _ _ _).mpr (Or.inl hp), rfl⟩
  · intro hnd
    simp only
    rw [length_insertAll (fun q => process_image env q fmt pre lang)
      (resolveInput fs rec input) [] hnd (fun q hq => rfl)]
    simp

/-- Claim C1, counterexample: submitting the same existing file twice
gives total two but successful one and failed zero, because the results
dict holds a single key. -/
theorem C1_counterexample :
    ¬ ((process_batch envOK fsA (.inr ["a", "a"]) "markdown" false true "en").statistics.successful +
       (process_batch envOK fsA (.inr ["a", "a"]) "markdown" false true "en").statistics.failed =
       (process_batch envOK fsA (.inr ["a", "a"]) "markdown" false true "en").statistics.total) := by
  decide

/-- Claim C1, witness: the invariant evaluated on a concrete one-unit
batch. -/
theorem C1_witness :
    (((hasKey (process_batch envOK fsA (.inr ["a"]) "markdown" false true "en").results "a" = true ∧
       hasKey (process_batch envOK fsA (.inr ["a"]) "markdown" false true "en").errors "a" = false) ∨
      (hasKey (process_batch envOK fsA (.inr ["a"]) "markdown" false true "en").results "a" = false ∧
       hasKey (process_batch envOK fsA (.inr ["a"]) "markdown" false true "en").errors "a" = true)) ∧
     (process_batch envOK fsA (.inr ["a"]) "markdown" false true "en").statistics.successful +
       (process_batch envOK fsA (.inr ["a"]) "markdown" false true "en").statistics.failed =
       (process_batch envOK fsA (.inr ["a"]) "markdown" false true "en").statistics.total) :=
  ⟨(C1_batch_report_invariant envOK fsA (.inr ["a"]) "markdown" false true "en" "a").1 (by decide),
   (C1_batch_report_invariant envOK fsA (.inr ["a"]) "markdown" false true "en" "a").2 (by decide)⟩

/-- Claim C2, amended: every exception raised while processing a single
unit is caught at that unit boundary (inside process_image) and recorded
as an entry for that unit in the results map, as a string starting with
Error processing image; the errors map of the report is always empty, and
the failure never aborts processing of the remaining units, every one of
which still receives a results entry. -/
theorem C2_unit_failure_recorded (env : OcrEnv) (fs : FsEnv) (input : String ⊕ List String)
    (fmt : String) (rec pre : Bool) (lang : String) (p q e : String)
    (hp : p ∈ resolveInput fs rec input)
    (he : pipelineResult env p fmt pre lang = .error e)
    (hq : q ∈ resolveInput fs rec input) :
    lookupDict (process_batch env fs input fmt rec pre lang).results p =
      some ("Error processing image: " ++ e) ∧
    (process_batch env fs input fmt rec pre lang).errors = [] ∧
    hasKey (process_batch env fs input fmt rec pre lang).results q = true := by
  rw [process_batch_results]
  refine ⟨?_, rfl, ?_⟩
  · rw [lookup_insertAll_mem _ _ _ _ hp]
    have hpi : process_image env p fmt pre lang = "Error processing image: " ++ e := by
      unfold process_image
      rw [he]
    rw [hpi]
  · exact (hasKey_insertAll _ _ _ _).mpr (Or.inl hq)

/-- Claim C2, counterexample: a unit whose download raises inside
process_image produces a report whose errors map has no entry for it (the
errors map is empty), with the failure recorded in results instead  --
contradicting the claim that the exception is recorded in the errors
map. -/
theorem C2_counterexample :
    pipelineResult envDl "http://h/a" "markdown" true "en" =
      .error "Failed to download http://h/a: boom" ∧
    hasKey (process_batch envDl fsA (.inr ["http://h/a"]) "markdown" false true "en").errors
      "http://h/a" = false ∧
    lookupDict (process_batch envDl fsA (.inr ["http://h/a"]) "markdown" false true "en").results
      "http://h/a" = some "Error processing image: Failed to download http://h/a: boom" :=
  ⟨rfl, by decide, by decide⟩

/-- Claim C2, witness: a batch with one failing URL and one healthy file;
the failing unit lands in results with the error string, errors is empty,
and the sibling unit is still processed. -/
theorem C2_witness :
    lookupDict (process_batch envDl fsA (.inr ["http://h/a", "a"]) "markdown" false true
      "en").results "http://h/a" =
      some "Error processing image: Failed to download http://h/a: boom" ∧
    (process_batch envDl fsA (.inr ["http://h/a", "a"]) "markdown" false true "en").errors = [] ∧
    hasKey (process_batch envDl fsA (.inr ["http://h/a", "a"]) "markdown" false true
      "en").results "a" = true :=
  C2_unit_failure_recorded envDl fsA (.inr ["http://h/a", "a"]) "markdown" false true "en"
    "http://h/a" "a" "Failed to download http://h/a: boom" (by decide) rfl (by decide)

/-- Claim C3: process_image always returns a string (it is a total
function of its environment) and converts every internal failure into a
returned string equal to Error processing image colon space plus the
message; consequently in process_batch such a unit is stored in the
results map with exactly that string and has no entry in the errors map,
so it is counted as successful and is indistinguishable from a genuine
success except by the string prefix. -/
theorem C3_process_image_error_string (env : OcrEnv) (path fmt : String) (pre : Bool)
    (lang e : String) (fs : FsEnv) (input : String ⊕ List String) (rec : Bool)
    (he : pipelineResult env path fmt pre lang = .error e)
    (hp : path ∈ resolveInput fs rec input) :
    process_image env path fmt pre lang = "Error processing image: " ++ e ∧
    lookupDict (process_batch env fs input fmt rec pre lang).results path =
      some ("Error processing image: " ++ e) ∧
    hasKey (process_batch env fs input fmt rec pre lang).errors path = false := by
  have hpi : process_image env path fmt pre lang = "Error processing image: " ++ e := by
    unfold process_image
    rw [he]
  refine ⟨hpi, ?_, ?_⟩
  · rw [process_batch_results]
    rw [lookup_insertAll_mem _ _ _ _ hp, hpi]
  · rw [process_batch_results]
    rfl

/-- Claim C3, witness: a failing download evaluated concretely. -/
theorem C3_witness :
    process_image envDl "http://h/b" "markdown" true "en" =
      "Error processing image: Failed to download http://h/b: boom" ∧
    lookupDict (process_batch envDl fsA (.inr ["http://h/b"]) "markdown" false true
      "en").results "http://h/b" =
      some "Error processing image: Failed to download http://h/b: boom" ∧
    hasKey (process_batch envDl fsA (.inr ["http://h/b"]) "markdown" false true "en").errors
      "http://h/b" = false :=
  C3_process_image_error_string envDl "http://h/b" "markdown" true "en"
    "Failed to download http://h/b: boom" fsA (.inr ["http://h/b"]) false rfl (by decide)

/-- Claim C4: an input reference that is not a URL, not a directory and
not an existing file is silently dropped at resolution: it does not occur
in the resolved unit list (the well-formedness hypothesis states that
glob only returns existing files, as guaranteed by the is_file filter in
the source), hence appears in neither results nor errors, and total
counts only the resolved units. -/
theorem C4_nonexistent_dropped (env : OcrEnv) (fs : FsEnv) (input : String ⊕ List String)
    (fmt : String) (rec pre : Bool) (lang : String) (p : String)
    (hwf : ∀ d r e x, x ∈ fs.glob d r e → fs.existsPath x = true)
    (hin : p ∈ inputRefs input)
    (hurl : isUrl p = false) (hdir : fs.isDir p = false) (hex : fs.existsPath p = false) :
    p ∉ resolveInput fs rec input ∧
    hasKey (process_batch env fs input fmt rec pre lang).results p = false ∧
    hasKey (process_batch env fs input fmt rec pre lang).errors p = false ∧
    (process_batch env fs input fmt rec pre lang).statistics.total =
      (resolveInput fs rec input).length := by
  have hnot : p ∉ resolveInput fs rec input := by
    intro hmem
    rcases mem_resolveInput fs rec input p hwf hmem with h1 | h2
    · rw [hurl] at h1
      cases h1
    · rw [hex] at h2
      cases h2
  refine ⟨hnot, ?_, ?_, ?_⟩
  · rw [process_batch_results]
    by_cases hk : hasKey (insertAll (fun x => process_image env x fmt pre lang)
        (resolveInput fs rec input) []) p = true
    · rcases (hasKey_insertAll _ _ _ _).mp hk with h1 | h2
      · exact absurd h1 hnot
      · simp [hasKey] at h2
    · simpa using hk
  · rw [process_batch_results]
    rfl
  · rw [process_batch_results]

/-- Claim C4, witness: the reference missing is dropped from a concrete
batch containing it alongside an existing file. -/
theorem C4_witness :
    "missing" ∉ resolveInput fsA false (.inr ["missing", "a"]) ∧
    hasKey (process_batch envOK fsA (.inr ["missing", "a"]) "markdown" false true
      "en").results "missing" = false ∧
    hasKey (process_batch envOK fsA (.inr ["missing", "a"]) "markdown" false true
      "en").errors "missing" = false ∧
    (process_batch envOK fsA (.inr ["missing", "a"]) "markdown" false true
      "en").statistics.total = (resolveInput fsA false (.inr ["missing", "a"])).length :=
  C4_nonexistent_dropped envOK fsA (.inr ["missing", "a"]) "markdown" false true "en" "missing"
    (by intro d r e x hx; cases hx) (by decide) (by decide) (by decide) (by decide)

end OCRProcessor

namespace ImageProcessor

/-- Claim C5: classification behaviour of the content validator, for an
arbitrary continuation of each signature.  JPEG, PNG, both GIF variants,
BMP and both TIFF byte orders are classified as the claim states, the
octet-stream fallback of the mime table maps to the extension bin, and
unmatched buffers (here the empty buffer) fail.  The ninth conjunct
exhibits the divergence the claim is wrong about in the code: a buffer
carrying a genuine WEBP header (RIFF, a four byte size field, WEBP) is
rejected with (none, none), because the stored signature RIFF....WEBP is
compared literally by bytes.startswith, dots included; only the literal
twelve bytes with 0x2e in the size positions are accepted (eighth
conjunct). -/
theorem C5_detect_signatures (rest : List Nat) :
    detect_mime_type (0xff :: 0xd8 :: 0xff :: rest) = (some "image/jpeg", some "jpg") ∧
    detect_mime_type (0x89 :: 0x50 :: 0x4e :: 0x47 :: 0x0d :: 0x0a :: 0x1a :: 0x0a :: rest) =
      (some "image/png", some "png") ∧
    detect_mime_type (0x47 :: 0x49 :: 0x46 :: 0x38 :: 0x37 :: 0x61 :: rest) =
      (some "image/gif", some "gif") ∧
    detect_mime_type (0x47 :: 0x49 :: 0x46 :: 0x38 :: 0x39 :: 0x61 :: rest) =
      (some "image/gif", some "gif") ∧
    detect_mime_type (0x42 :: 0x4d :: rest) = (some "image/bmp", some "bmp") ∧
    detect_mime_type (0x49 :: 0x49 :: 0x2a :: 0x00 :: rest) = (some "image/tiff", some "tiff") ∧
    detect_mime_type (0x4d :: 0x4d :: 0x00 :: 0x2a :: rest) = (some "image/tiff", some "tiff") ∧
    detect_mime_type (0x52 :: 0x49 :: 0x46 :: 0x46 :: 0x2e :: 0x2e :: 0x2e :: 0x2e ::
      0x57 :: 0x45 :: 0x42 :: 0x50 :: rest) = (some "image/webp", some "webp") ∧
    detect_mime_type (0x52 :: 0x49 :: 0x46 :: 0x46 :: 0x1a :: 0x00 :: 0x00 :: 0x00 ::
      0x57 :: 0x45 :: 0x42 :: 0x50 :: rest) = (none, none) ∧
    detect_mime_type [] = (none, none) ∧
    List.find? (fun pm => strStartsWith "application/octet-stream" pm.1) mime_map =
      some ("application/octet-stream", "bin") :=
  ⟨rfl, rfl, rfl, rfl, rfl, rfl, rfl, rfl, rfl, rfl, rfl⟩

/-- Claim C6: for every input string the filename sanitiser returns a
non-empty name of length at most the configured maximum that contains no
path separator, including separators that percent-decoding would
introduce; the digest hypothesis states that the random fallback suffix
is hexadecimal, as an md5 hexdigest always is. -/
theorem C6_sanitize_safe (digest filename : List Char)
    (hd : ∀ c ∈ digest, isHexChar c = true) :
    sanitize_filename digest filename ≠ [] ∧
    (sanitize_filename digest filename).length ≤ max_filename_length ∧
    ∀ c ∈ sanitize_filename digest filename, ¬ c = '/' ∧ ¬ c = '\\' := by
  have hP : ∀ c ∈ rstripDots (pyStrip (collapseWs (replaceDangerous (pyUnquote filename)))),
      ¬ c = '/' ∧ ¬ c = '\\' := by
    intro c hc
    have h1 := mem_pyStrip _ _ (mem_rstripDots _ _ hc)
    rcases mem_collapseWsAux _ _ _ h1 with h2 | h2
    · rw [h2]
      constructor <;> decide
    · exact replaceDangerous_no_sep _ _ h2
  exact sanitizeCore_safe digest _ hd hP

/-- Claim C6, witness: an input made of encoded separators, whitespace
and trailing dots evaluated concretely. -/
theorem C6_witness :
    (∀ c ∈ ("0123abcd".toList), isHexChar c = true) ∧
    (sanitize_filename ("0123abcd".toList) ("%2F%5C a..".toList) ≠ [] ∧
     (sanitize_filename ("0123abcd".toList) ("%2F%5C a..".toList)).length ≤
       max_filename_length ∧
     ∀ c ∈ sanitize_filename ("0123abcd".toList) ("%2F%5C a..".toList),
       ¬ c = '/' ∧ ¬ c = '\\') :=
  ⟨by decide, C6_sanitize_safe ("0123abcd".toList) ("%2F%5C a..".toList) (by decide)⟩

end ImageProcessor

namespace OCRProcessor

/-- Claim C7: for a PDF whose pages produce the per-page results rs (in
page order, as the source loop is sequential: page processing happens in
one worker, so no pool completion order can reorder it), process_image
returns the newline join of the labelled pages, where element k of the
labelled list is Page k plus one, a colon, a newline, and the result of
page k; the label prefix guarantees the combined text never parses as
JSON, so the best-effort JSON formatting step returns it unchanged for
every format_type. -/
theorem C7_pdf_pages_in_order (env : OcrEnv) (path fmt : String) (pre : Bool) (lang : String)
    (pages rs : List String) (k : Nat)
    (hurl : isUrl path = false)
    (hex : env.fileExists path = true)
    (hpdf : isPdfPath path = true)
    (hpages : env.pdfToImages path = .ok pages)
    (hrs : mapPages (processPage env pre lang) pages = .ok rs) :
    process_image env path fmt pre lang = pyJoin "\n" (labelPages 0 rs) ∧
    rs.length = pages.length ∧
    (labelPages 0 rs).get? k =
      (rs.get? k).map (fun r => "Page " ++ toString (k + 1) ++ ":\n" ++ r) := by
  refine ⟨?_, mapPages_length _ _ _ hrs, ?_⟩
  · have hfmt : formatJson fmt (pyJoin "\n" (labelPages 0 rs)) =
        pyJoin "\n" (labelPages 0 rs) := by
      unfold formatJson
      by_cases hj : fmt = "json"
      · rw [if_pos hj, pyJsonLoads_labelPages_none]
      · rw [if_neg hj]
    unfold process_image pipelineResult
    rw [hurl]
    simp only [Bool.false_eq_true, if_false, hex, if_true, hpdf, hpages,
      mapPages_labels env pre lang pages rs hrs 0, hfmt]
  · have := labelPages_get? rs 0 k
    simpa using this

/-- Claim C7, witness: a three page PDF evaluated concretely, checking
the label of the third page. -/
theorem C7_witness :
    process_image envOK "doc.pdf" "markdown" false "en" =
      pyJoin "\n" (labelPages 0
        ["text:b64:doc.pdf_page0.png", "text:b64:doc.pdf_page1.png",
         "text:b64:doc.pdf_page2.png"]) ∧
    (["text:b64:doc.pdf_page0.png", "text:b64:doc.pdf_page1.png",
      "text:b64:doc.pdf_page2.png"] : List String).length =
      (["doc.pdf_page0.png", "doc.pdf_page1.png", "doc.pdf_page2.png"] : List String).length ∧
    (labelPages 0
        ["text:b64:doc.pdf_page0.png", "text:b64:doc.pdf_page1.png",
         "text:b64:doc.pdf_page2.png"]).get? 2 =
      ((["text:b64:doc.pdf_page0.png", "text:b64:doc.pdf_page1.png",
         "text:b64:doc.pdf_page2.png"] : List String).get? 2).map
        (fun r => "Page " ++ toString (2 + 1) ++ ":\n" ++ r) :=
  C7_pdf_pages_in_order envOK "doc.pdf" "markdown" false "en"
    ["doc.pdf_page0.png", "doc.pdf_page1.png", "doc.pdf_page2.png"]
    ["text:b64:doc.pdf_page0.png", "text:b64:doc.pdf_page1.png", "text:b64:doc.pdf_page2.png"]
    2 rfl rfl rfl rfl rfl

/-- Claim C8: with format_type json, when the inference text does not
parse as JSON, process_image returns the raw text unmodified (and being a
total function it cannot raise); when the text parses, the parsed value
is re-serialised with the pretty printer before being returned. -/
theorem C8_json_best_effort (env : OcrEnv) (path : String) (pre : Bool) (lang : String)
    (s : String) (j : PyJson)
    (hurl : isUrl path = false)
    (hex : env.fileExists path = true)
    (hpdf : isPdfPath path = false)
    (hres : processPage env pre lang path = .ok s) :
    (pyJsonLoads s = none → process_image env path "json" pre lang = s) ∧
    (pyJsonLoads s = some j → process_image env path "json" pre lang = pyJsonDumps j) := by
  have hbase : process_image env path "json" pre lang = formatJson "json" s := by
    unfold process_image pipelineResult
    rw [hurl]
    simp only [Bool.false_eq_true, if_false, hex, if_true, hpdf, hres]
  constructor
  · intro hn
    rw [hbase]
    unfold formatJson
    rw [if_pos rfl, hn]
  · intro hs
    rw [hbase]
    unfold formatJson
    rw [if_pos rfl, hs]

/-- Claim C8, witness: the model answer not json is returned verbatim. -/
theorem C8_witness :
    pyJsonLoads "not json" = none ∧
    process_image envNJ "img.png" "json" false "en" = "not json" :=
  ⟨rfl, (C8_json_best_effort envNJ "img.png" false "en" "not json" PyJson.null
    rfl rfl rfl rfl).1 rfl⟩

end OCRProcessor

namespace ImageProcessor

/-- Claim C9: process_urls, over any transport outcomes, returns (it is a
total function, so the batch never raises) a mapping whose keys are
exactly the submitted URLs whose fetch succeeded; for distinct URLs its
size is N minus M where N is the number of URLs and M the number whose
fetch or signature validation failed; and every successful URL is mapped
to the local path generated for it. -/
theorem C9_process_urls_partition (resp : String → Except String (List (List Nat)))
    (savePath : String → String → String) (urls : List String) (u : String)
    (content : List Nat) (ext : String)
    (hnd : urls.Nodup) :
    (hasKey (process_urls resp savePath urls) u = true ↔
      u ∈ urls ∧ (fetch_image (resp u)).isSome = true) ∧
    (process_urls resp savePath urls).length =
      urls.length - (urls.filter (fun x => (fetch_image (resp x)).isNone)).length ∧
    (u ∈ urls → fetch_image (resp u) = some (content, ext) →
      lookupDict (process_urls resp savePath urls) u = some (savePath u ext)) := by
  unfold process_urls
  refine ⟨?_, ?_, ?_⟩
  · rw [hasKey_processUrlsLoop]
    simp [hasKey]
  · rw [length_processUrlsLoop (fun x => fetch_image (resp x)) savePath urls [] hnd
      (fun q hq => rfl)]
    have hfil := filter_isSome_isNone_length (fun x => fetch_image (resp x)) urls
    simp only [List.length_nil, Nat.zero_add]
    omega
  · intro hu hf
    exact lookup_processUrlsLoop_mem _ _ _ _ _ _ _ hnd hu hf

/-- Claim C9, witness: two URLs of which one fails, evaluated
concretely. -/
theorem C9_witness :
    (["http://h/a.jpg", "http://h/b.jpg"] : List String).Nodup ∧
    ((hasKey (process_urls respW saveW ["http://h/a.jpg", "http://h/b.jpg"])
        "http://h/a.jpg" = true ↔
      "http://h/a.jpg" ∈ (["http://h/a.jpg", "http://h/b.jpg"] : List String) ∧
        (fetch_image (respW "http://h/a.jpg")).isSome = true) ∧
     (process_urls respW saveW ["http://h/a.jpg", "http://h/b.jpg"]).length =
       (["http://h/a.jpg", "http://h/b.jpg"] : List String).length -
         ((["http://h/a.jpg", "http://h/b.jpg"] : List String).filter
           (fun x => (fetch_image (respW x)).isNone)).length ∧
     ("http://h/a.jpg" ∈ (["http://h/a.jpg", "http://h/b.jpg"] : List String) →
       fetch_image (respW "http://h/a.jpg") =
         some ([0xff, 0xd8, 0xff, 0, 0, 0, 0, 0, 0, 0, 0, 0], "jpg") →
       lookupDict (process_urls respW saveW ["http://h/a.jpg", "http://h/b.jpg"])
         "http://h/a.jpg" = some (saveW "http://h/a.jpg" "jpg"))) :=
  ⟨by decide,
   C9_process_urls_partition respW saveW ["http://h/a.jpg", "http://h/b.jpg"]
     "http://h/a.jpg" [0xff, 0xd8, 0xff, 0, 0, 0, 0, 0, 0, 0, 0, 0] "jpg" (by decide)⟩

end ImageProcessor

/-- Claim C10, amended: constructing ImageProcessor with a non-positive
worker count raises ValueError at construction time, but the
OCRProcessor constructor performs no worker-count validation at all and
silently accepts any value, so the original claim that every processor
constructor of the core fails loudly is wrong for OCRProcessor. -/
theorem C10_construction_validation (mw t : Int) (kt : Bool) (mn bu : String)
    (ak : Option String) (hmw : mw ≤ 0) :
    ImageProcessor.init mw t kt = .error "max_workers必须为正整数" ∧
    exceptIsOk (OCRProcessor.init mn bu ak mw) = true := by
  constructor
  · unfold ImageProcessor.init
    rw [if_pos hmw]
  · rfl

/-- Claim C10, counterexample: OCRProcessor constructed with max_workers
zero succeeds silently with the defaults of the source, refuting the
claim that an invalid worker-count bound fails loudly for every processor
constructor. -/
theorem C10_counterexample :
    OCRProcessor.init "llama3.2-vision:11b" "http://localhost:11434/api/generate" none 0 =
      .ok { model_name := "llama3.2-vision:11b"
            base_url := "http://localhost:11434/api/generate"
            max_workers := 0
            api_headers := none } := rfl

/-- Claim C10, witness: the amended statement evaluated at worker count
zero. -/
theorem C10_witness :
    ((0 : Int) ≤ 0) ∧
    (ImageProcessor.init 0 15 false = .error "max_workers必须为正整数" ∧
     exceptIsOk (OCRProcessor.init "llama3.2-vision:11b" "http://localhost:11434/api/generate"
       none 0) = true) :=
  ⟨by decide,
   C10_construction_validation 0 15 false "llama3.2-vision:11b"
     "http://localhost:11434/api/generate" none (by decide)⟩

end OllamaOCR
